import Mathlib

/-!
# Streaming consumer and poll reconciler of `static/script.js`

A shallow embedding of the chat page script: the line framer, the per-line
decoder with its try/catch, the event dispatch that mutates the assistant
message view, the tool-call header click handler, the poll callback and the
page-level handlers that touch the send control.

JavaScript strings are modelled as lists of characters.
-/

namespace Script

/-- JavaScript string, as the list of its characters. -/
abbrev Str := List Char

/-! ## Line framer (script.js 170-180) -/

/-- Puts `c` in front of the first segment of a segment list. -/
def consHead (c : Char) : List Str → List Str
  | [] => [[c]]
  | l :: ls => (c :: l) :: ls

/-- `s.split(sep)` for a one-character separator: the segments between the
separators, in order; a string without separator gives one segment. -/
def split (sep : Char) : Str → List Str
  | [] => [[]]
  | c :: cs => if c = sep then [] :: split sep cs else consHead c (split sep cs)

/-- Result of `lines.pop()`: the last entry (the empty string stands for
`undefined`, which `split` never produces since its result is non-empty). -/
def pop (lines : List Str) : Str := lines.getLast?.getD []

/-- One pass of the framer on a decoded chunk (script.js 176-178):
`buffer += chunk; lines = buffer.split('\n'); buffer = lines.pop()`.
Returns the lines handed to the `for` loop and the new buffer. -/
def framerStep (buffer chunk : Str) : List Str × Str :=
  let buffer := buffer ++ chunk
  let lines := split '\n' buffer
  (lines.dropLast, pop lines)

/-- The `while (true)` read loop seen by the framer alone: every chunk goes
through `framerStep`; on `done` the loop breaks and the buffer is left as it
is. Returns all lines handed to the `for` loop, in order, and the buffer at
the `break`. -/
def framerRun : Str → List Str → List Str × Str
  | buffer, [] => ([], buffer)
  | buffer, chunk :: rest =>
    let r := framerStep buffer chunk
    let r2 := framerRun r.2 rest
    (r.1 ++ r2.1, r2.2)

/-- Lines that a whole response body delivers to the `for` loop
(`let buffer = ""` at script.js 170, then the read loop). -/
def emittedLines (chunks : List Str) : List Str := (framerRun [] chunks).1

/-- Buffer content at the `break` of the read loop; nothing reads it later. -/
def finalBuffer (chunks : List Str) : Str := (framerRun [] chunks).2

/-- Text after the last newline of `t` (all of `t` when it has none). -/
def afterLastNewline (t : Str) : Str := (t.reverse.takeWhile (· ≠ '\n')).reverse

/-- Text up to and including the last newline of `t` (empty when it has none). -/
def throughLastNewline (t : Str) : Str := (t.reverse.dropWhile (· ≠ '\n')).reverse

/-- Each line followed by a newline, concatenated. -/
def unlines (ls : List Str) : Str := (ls.map (· ++ ['\n'])).flatten

/-! ## Event dispatch on the assistant message view (script.js 146-155, 186-236) -/

/-- What `querySelector` finds in a tool-call container once the template of
script.js 193-199 has been written to `innerHTML`, with `event.tool` and the
printed arguments interpolated unescaped: `icon` tells whether there is a
`.tool-status-icon` element; `argsDiv` is `none` when there is no
`.tool-call-args` element, and otherwise tells whether the first one is
displayed (`style.display` other than `'none'`). Markup inside the tool name
can remove either element. -/
structure Built where
  icon : Bool
  argsDiv : Option Bool
  deriving DecidableEq, Repr

/-- Container built from a tool name and arguments without markup: the status
icon is there, the argument element is there and hidden. -/
def Built.plain : Built := { icon := true, argsDiv := some false }

/-- Record obtained from one line, as the dispatch reads it. The string fields
hold the text the script ends up using: `data` and `content` as the `+=` on
`fullResponse` sees them, `tool` as interpolated into the header, `args` as
printed by `JSON.stringify(event.args, null, 2)`; `built` describes the
container the template yields for them. `tool_start_throws` is a `tool_start`
record whose `tool` has no string conversion, so that the template literal
raises after lines 191-192 have run. `other` is a record whose `type` is none
of the four tested values. -/
inductive StreamEvent where
  | content (data : Str)
  | tool_start (tool : Str) (args : Str) (built : Built)
  | tool_start_throws
  | tool_end
  | error (content : Str)
  | other
  deriving DecidableEq, Repr

/-- Child node of `assistantMessageDiv`: the text region `assistantContentDiv`
or a tool-call container, named by its creation index. -/
inductive Node where
  | text
  | tool (id : Nat)
  deriving DecidableEq, Repr

/-- One `tool-call-container` div that was filled and inserted: header text,
printed arguments, whether it has a status icon, whether lines 223-224 have
run on that icon, and the state of its argument element as in `Built`. -/
structure ToolBlock where
  tool : Str
  args : Str
  icon : Bool
  done : Bool
  argsDiv : Option Bool
  deriving DecidableEq, Repr

/-- The argument element of the block exists and is displayed. -/
def ToolBlock.argsShown (b : ToolBlock) : Bool := b.argsDiv == some true

/-- Value of the variable `currentToolCallDiv`: `null`, a container of
`toolBlocks` by index, or the fresh container of a `tool_start` whose template
literal raised: an empty div that is in no document. -/
inductive Slot where
  | null
  | block (id : Nat)
  | detached
  deriving DecidableEq, Repr

/-- Variables and DOM nodes of one `sendMessage` turn. `contentSource` is the
text last handed to `marked.parse` for `assistantContentDiv.innerHTML`. -/
structure RenderState where
  fullResponse : Str
  currentToolCallDiv : Slot
  toolBlocks : List ToolBlock
  children : List Node
  contentSource : Str
  deriving DecidableEq, Repr

/-- State at script.js 146-155: the container holds only the text region. -/
def RenderState.empty : RenderState :=
  { fullResponse := [], currentToolCallDiv := Slot.null, toolBlocks := [],
    children := [Node.text], contentSource := [] }

/-- DOM `parent.appendChild(n)`: a node that is already a child is moved, so
it is taken out first; then it becomes the last child. -/
def appendChild (n : Node) (children : List Node) : List Node :=
  children.filter (fun c => c ≠ n) ++ [n]

/-- DOM `parent.insertBefore(n, ref)` for a node `n` that is not yet a child:
`n` is placed immediately before `ref`. The script only calls it with
`ref = assistantContentDiv`, which is always a child (`text_mem_children`);
the list is returned unchanged when `ref` is absent. -/
def insertBefore (n ref : Node) : List Node → List Node
  | [] => []
  | c :: cs => if c = ref then n :: c :: cs else c :: insertBefore n ref cs

/-- Applies `f` to the block at index `i`, if there is one. -/
def updateBlock (f : ToolBlock → ToolBlock) : Nat → List ToolBlock → List ToolBlock
  | _, [] => []
  | 0, b :: bs => f b :: bs
  | i + 1, b :: bs => b :: updateBlock f i bs

/-- Text of the error annotation prefix of script.js 234. -/
def errorMark : Str := "\n\n**Error:** ".toList

/-- Message of the exception raised by a property access on `null`. -/
def typeError : Str := "TypeError".toList

/-- `currentToolCallDiv.querySelector('.tool-status-icon')` is not `null` for
the container at index `id`. -/
def hasIcon (id : Nat) (blocks : List ToolBlock) : Bool :=
  match blocks[id]? with
  | some b => b.icon
  | none => false

/-- The `if / else if` chain of script.js 186-236 on one parsed record:
the state it leaves and the exception it raises, if any. An exception leaves
the assignments made before it in place. -/
def dispatch (ev : StreamEvent) (s : RenderState) : RenderState × Option Str :=
  match ev with
  | StreamEvent.content data =>
    let full := s.fullResponse ++ data
    ({ s with fullResponse := full, contentSource := full }, none)
  | StreamEvent.tool_start tool args built =>
    let id := s.toolBlocks.length
    let blocks := s.toolBlocks ++
      [{ tool := tool, args := args, icon := built.icon, done := false,
         argsDiv := built.argsDiv }]
    if s.fullResponse = [] then
      ({ s with currentToolCallDiv := Slot.block id, toolBlocks := blocks,
                children := insertBefore (Node.tool id) Node.text s.children }, none)
    else
      ({ s with currentToolCallDiv := Slot.block id, toolBlocks := blocks,
                children := appendChild Node.text (appendChild (Node.tool id) s.children) },
       none)
  | StreamEvent.tool_start_throws =>
    ({ s with currentToolCallDiv := Slot.detached }, some typeError)
  | StreamEvent.tool_end =>
    match s.currentToolCallDiv with
    | Slot.null => (s, none)
    | Slot.detached => (s, some typeError)
    | Slot.block id =>
      if hasIcon id s.toolBlocks then
        ({ s with toolBlocks := updateBlock (fun b => { b with done := true }) id s.toolBlocks,
                  currentToolCallDiv := Slot.null }, none)
      else (s, some typeError)
  | StreamEvent.error content =>
    let full := s.fullResponse ++ errorMark ++ content
    ({ s with fullResponse := full, contentSource := full }, none)
  | StreamEvent.other => (s, none)

/-- State after the loop iteration of one parsed record, the exception, if
any, being caught at script.js 237. -/
def applyEvent (ev : StreamEvent) (s : RenderState) : RenderState := (dispatch ev s).1

/-- Events applied in arrival order. -/
def applyEvents (evs : List StreamEvent) (s : RenderState) : RenderState :=
  evs.foldl (fun st ev => applyEvent ev st) s

/-- The `onclick` handler installed on a tool-call header (script.js 201-204).
`i` is the container whose header was activated; the handler body reads the
variable `currentToolCallDiv` of the enclosing `sendMessage`. It raises a
`TypeError` when that variable is `null` (`null.querySelector`) and when the
container it names has no `.tool-call-args` element (`args.style` on
`null`). -/
def headerClick (_i : Nat) (s : RenderState) : Except Str RenderState :=
  match s.currentToolCallDiv with
  | Slot.null => Except.error typeError
  | Slot.detached => Except.error typeError
  | Slot.block j =>
    match s.toolBlocks[j]? with
    | some b =>
      match b.argsDiv with
      | some shown =>
        let toggle : ToolBlock → ToolBlock := fun c => { c with argsDiv := some (!shown) }
        Except.ok { s with toolBlocks := updateBlock toggle j s.toolBlocks }
      | none => Except.error typeError
    | none => Except.error typeError

/-- What an event adds to `fullResponse`. -/
def contribution : StreamEvent → Str
  | StreamEvent.content data => data
  | StreamEvent.error content => errorMark ++ content
  | _ => []

/-- Tool name and printed arguments of a `tool_start` event that builds a
block. -/
def startInfo : StreamEvent → Option (Str × Str)
  | StreamEvent.tool_start tool args _ => some (tool, args)
  | _ => none

/-- The event builds its container as the template means it: a `tool_start`
whose tool name converts to text and whose container keeps its status icon.
The other kinds of event build nothing. -/
def intact : StreamEvent → Bool
  | StreamEvent.tool_start _ _ built => built.icon
  | StreamEvent.tool_start_throws => false
  | _ => true

/-- The block that the variable `currentToolCallDiv` can refer to according to
the data model: the last created block when it is still pending. -/
def openBlock (blocks : List ToolBlock) : Slot :=
  match blocks.getLast? with
  | some b => if b.done then Slot.null else Slot.block (blocks.length - 1)
  | none => Slot.null

/-- Index of the most recently started block that has not ended yet, whatever
its position. -/
def lastPending (blocks : List ToolBlock) : Option Nat :=
  ((List.range blocks.length).filter
    (fun i => (blocks.get? i).any (fun b => !b.done))).getLast?

/-- Shape of a turn's view that the dispatch maintains: the children are the
tool-call containers in creation order followed by the text region. -/
def WellFormed (s : RenderState) : Prop :=
  s.children = (List.range s.toolBlocks.length).map Node.tool ++ [Node.text]

/-- For intact events the variable `currentToolCallDiv` is the last container
exactly when that one is pending, and every container has its status icon. -/
def SlotTracksOpen (s : RenderState) : Prop :=
  s.currentToolCallDiv = openBlock s.toolBlocks ∧ ∀ b ∈ s.toolBlocks, b.icon = true

/-! ## Per-line decoding with its try/catch (script.js 180-240) -/

/-- Code points removed by `String.prototype.trim`: WhiteSpace and
LineTerminator of ECMAScript. -/
def isWhiteSpace (c : Char) : Bool :=
  let n := c.toNat
  n = 0x09 || n = 0x0A || n = 0x0B || n = 0x0C || n = 0x0D || n = 0x20 || n = 0xA0 ||
  n = 0x1680 || (0x2000 ≤ n && n ≤ 0x200A) || n = 0x2028 || n = 0x2029 || n = 0x202F ||
  n = 0x205F || n = 0x3000 || n = 0xFEFF

/-- `s.trim()`. -/
def trim (s : Str) : Str :=
  ((s.dropWhile isWhiteSpace).reverse.dropWhile isWhiteSpace).reverse

/-- State carried by the `for` loop over lines: the turn's render state and the
lines reported through `console.error`. -/
structure LoopState where
  render : RenderState
  diagnostics : List Str
  deriving DecidableEq, Repr

/-- Body of the `try` block: `JSON.parse(line)` and the dispatch; the state it
leaves and the exception that reaches the `catch`, if any. `parse` stands for
`JSON.parse` together with the reads of the record's fields; its error case
is an exception raised before anything is modified: a syntax error, reading
`type` of `null`, or a `data` or `content` without string conversion. -/
def tryBody (parse : Str → Except Str StreamEvent) (line : Str) (s : RenderState) :
    RenderState × Option Str :=
  match parse line with
  | Except.ok ev => dispatch ev s
  | Except.error e => (s, some e)

/-- One iteration of `for (const line of lines)`: blank lines are skipped by
`continue`, an exception of the `try` block is caught and logged. -/
def processLine (parse : Str → Except Str StreamEvent) (st : LoopState) (line : Str) :
    LoopState :=
  if trim line = [] then st
  else
    match (tryBody parse line st.render).2 with
    | none => { st with render := (tryBody parse line st.render).1 }
    | some _ =>
      { render := (tryBody parse line st.render).1,
        diagnostics := st.diagnostics ++ [line] }

/-- The `for` loop over the lines of one chunk. -/
def processLines (parse : Str → Except Str StreamEvent) (st : LoopState)
    (lines : List Str) : LoopState :=
  lines.foldl (processLine parse) st

/-- The `while (true)` read loop (script.js 172-242): each chunk is framed and
its lines are processed; at `done` the loop breaks, leaving the buffer. -/
def readLoop (parse : Str → Except Str StreamEvent) :
    Str → LoopState → List Str → Str × LoopState
  | buffer, st, [] => (buffer, st)
  | buffer, st, chunk :: rest =>
    let r := framerStep buffer chunk
    readLoop parse r.2 (processLines parse st r.1) rest

/-- Outcome of a whole response body on a fresh turn. -/
def runStream (parse : Str → Except Str StreamEvent) (chunks : List Str) : LoopState :=
  (readLoop parse [] { render := RenderState.empty, diagnostics := [] } chunks).2

/-! ## Page level: message list, send control, poll callback

The poll callback looks at `chatMessages` through two selectors,
`querySelectorAll('.message')` and `querySelector('.welcome-message')`, which
match descendants at any depth. Message text goes through `marked.parse` into
`innerHTML` (script.js 112), so the markup of a message can hold such
elements. The functions below take `marked : Str → Markup`, which tells for a
message text what the two selectors find in the markup made of it. -/

/-- What the two selectors find inside a piece of markup: the number of
elements of class `message`, and whether there is an element of class
`welcome-message`. -/
structure Markup where
  messages : Nat
  welcome : Bool
  deriving DecidableEq, Repr

/-- Markup without any element of the two classes. -/
def Markup.plain : Markup := { messages := 0, welcome := false }

/-- Stand-in for `marked.parse` on texts without raw HTML, which it turns into
paragraphs without class attributes. -/
def plainText : Str → Markup := fun _ => Markup.plain

/-- Stored message as returned by the messages endpoint. -/
structure Message where
  role : Str
  content : Str
  deriving DecidableEq, Repr

/-- Child of `chatMessages`: a `welcome-message` div, a div of class
`message ${role}` built by `appendMessage` around the markup of `content`, or
the `message assistant` container that `sendMessage` builds for the streamed
answer, with what the selectors find among its tool-call containers and its
text region. -/
inductive Elem where
  | welcome
  | message (role content : Str)
  | streaming (inner : Markup)
  deriving DecidableEq, Repr

/-- ASCII whitespace, which separates the tokens of a `class` attribute. -/
def isAsciiSpace (c : Char) : Bool :=
  let n := c.toNat
  n = 0x09 || n = 0x0A || n = 0x0C || n = 0x0D || n = 0x20

/-- Tokens of a `class` attribute value (empty strings between adjacent
separators included). -/
def classTokens : Str → List Str
  | [] => [[]]
  | c :: cs => if isAsciiSpace c then [] :: classTokens cs else consHead c (classTokens cs)

/-- The class name `welcome-message`. -/
def welcomeClass : Str := "welcome-message".toList

/-- Number of elements of class `message` in the subtree of a child. -/
def Elem.messages (marked : Str → Markup) : Elem → Nat
  | Elem.welcome => 0
  | Elem.message _ content => 1 + (marked content).messages
  | Elem.streaming inner => 1 + inner.messages

/-- Whether the subtree of a child has an element of class
`welcome-message`. -/
def Elem.hasWelcome (marked : Str → Markup) : Elem → Bool
  | Elem.welcome => true
  | Elem.message role content =>
    decide (welcomeClass ∈ classTokens role) || (marked content).welcome
  | Elem.streaming inner => inner.welcome

/-- `chatMessages.querySelectorAll('.message').length`. -/
def messageCount (marked : Str → Markup) (view : List Elem) : Nat :=
  (view.map (Elem.messages marked)).sum

/-- `chatMessages.querySelector('.welcome-message')` is not `null`. -/
def hasWelcome (marked : Str → Markup) (view : List Elem) : Bool :=
  view.any (Elem.hasWelcome marked)

/-- `appendMessage(role, content)` on the child list of `chatMessages`. -/
def appendMessage (role content : Str) (view : List Elem) : List Elem :=
  view ++ [Elem.message role content]

/-- `renderMessages(messages)` (script.js 93-103). -/
def renderMessages (messages : List Message) : List Elem :=
  if messages.length = 0 then [Elem.welcome]
  else messages.foldl (fun v m => appendMessage m.role m.content v) []

/-- `newMessages` of the poll callback (script.js 299), empty when the length
test of line 292 fails. -/
def newMessages (marked : Str → Markup) (messages : List Message) (view : List Elem) :
    List Message :=
  if messages.length > messageCount marked view then
    messages.drop (messageCount marked view)
  else []

/-- The poll callback after a successful fetch (script.js 289-302): count the
elements of class `message`, and when the fetched list is longer, clear the
whole container if an element of class `welcome-message` is found, then
append the tail. -/
def reconcile (marked : Str → Markup) (messages : List Message) (view : List Elem) :
    List Elem :=
  let currentCount := messageCount marked view
  if messages.length > currentCount then
    let view1 := if hasWelcome marked view then [] else view
    (messages.drop currentCount).foldl (fun v m => appendMessage m.role m.content v) view1
  else view

/-- Page variables read or written by the handlers below. `activeStreams`
counts the `sendMessage` calls that are inside their read loop;
`pollFetches` counts the message-list requests issued by the poll callback. -/
structure PageState where
  currentConversationId : Option Nat
  inputValue : Str
  sendBtnDisabled : Bool
  chatMessages : List Elem
  activeStreams : Nat
  pollFetches : Nat
  deriving DecidableEq, Repr

/-- The test `!currentConversationId`: true for `null` and for the id 0. -/
def noConversation (id : Option Nat) : Bool :=
  match id with
  | none => true
  | some n => n == 0

/-- `selectConversation(id, title)` with the fetched message list. -/
def selectConversation (id : Nat) (messages : List Message) (s : PageState) : PageState :=
  { s with currentConversationId := some id, chatMessages := renderMessages messages }

/-- `sendMessage` from its start to the first `reader.read()` (script.js
125-173), taken as one step; `newConvId` is the id the server gives when a
conversation has to be created. The streamed container starts with an empty
text region and no tool-call container. -/
def sendMessage (newConvId : Nat) (s : PageState) : PageState :=
  let text := trim s.inputValue
  if text = [] then s
  else
    let s1 : PageState :=
      if noConversation s.currentConversationId then
        { s with currentConversationId := some newConvId, chatMessages := [] }
      else s
    { s1 with chatMessages :=
                appendMessage "user".toList text s1.chatMessages ++ [Elem.streaming Markup.plain],
              inputValue := [],
              sendBtnDisabled := true,
              activeStreams := s1.activeStreams + 1 }

/-- Replaces what the selectors find inside the child at index `k`, when that
child is a streamed container. -/
def setInner (inner : Markup) : Nat → List Elem → List Elem
  | _, [] => []
  | 0, Elem.streaming _ :: es => Elem.streaming inner :: es
  | 0, e :: es => e :: es
  | k + 1, e :: es => e :: setInner inner k es

/-- One more chunk arrives in a running read loop and is dispatched: only the
inside of that turn's streamed container changes. `k` is the position of the
container among the children and `inner` what the selectors find in it
afterwards; a container that is no longer a child changes nothing here. -/
def receiveChunk (k : Nat) (inner : Markup) (s : PageState) : PageState :=
  { s with chatMessages := setInner inner k s.chatMessages }

/-- The read loop sees `done`, breaks, and the `finally` block runs. -/
def streamEnd (s : PageState) : PageState :=
  { s with sendBtnDisabled := false, activeStreams := s.activeStreams - 1 }

/-- The request or a read fails: `catch` appends the error message, then
`finally` runs. -/
def streamFail (s : PageState) : PageState :=
  { s with chatMessages :=
             appendMessage "assistant".toList "Error: Failed to send message.".toList s.chatMessages,
           sendBtnDisabled := false, activeStreams := s.activeStreams - 1 }

/-- The `input` listener of `messageInput` (script.js 268-270) after the user
changed the field to `value`. -/
def inputEdit (value : Str) (s : PageState) : PageState :=
  { s with inputValue := value, sendBtnDisabled := decide (trim value = []) }

/-- The `setInterval` callback (script.js 278-324) with the result of its
fetch, taken as one step: nothing without an active conversation or with the
send control disabled; a failed fetch is logged only. The browser
notification of lines 310-318 does not touch the page state. -/
def pollTick (marked : Str → Markup) (fetched : Except Str (List Message)) (s : PageState) :
    PageState :=
  if noConversation s.currentConversationId then s
  else if s.sendBtnDisabled then s
  else
    match fetched with
    | Except.ok messages =>
      { s with pollFetches := s.pollFetches + 1,
               chatMessages := reconcile marked messages s.chatMessages }
    | Except.error _ => { s with pollFetches := s.pollFetches + 1 }

/-- Events of the page: the handlers above with their inputs. -/
inductive PageEvent where
  | select (id : Nat) (messages : List Message)
  | submit (newConvId : Nat)
  | chunk (k : Nat) (inner : Markup)
  | streamEnd
  | streamFail
  | input (value : Str)
  | poll (fetched : Except Str (List Message))

/-- Step function of the page. Chunks and stream ends only happen while a read
loop is running. -/
def pageStep (marked : Str → Markup) (s : PageState) : PageEvent → PageState
  | PageEvent.select id messages => selectConversation id messages s
  | PageEvent.submit newConvId => sendMessage newConvId s
  | PageEvent.chunk k inner => if s.activeStreams = 0 then s else receiveChunk k inner s
  | PageEvent.streamEnd => if s.activeStreams = 0 then s else streamEnd s
  | PageEvent.streamFail => if s.activeStreams = 0 then s else streamFail s
  | PageEvent.input value => inputEdit value s
  | PageEvent.poll fetched => pollTick marked fetched s

/-- Page state after a sequence of events. -/
def pageRun (marked : Str → Markup) (s : PageState) (evs : List PageEvent) : PageState :=
  evs.foldl (pageStep marked) s

/-- Page right after load: no conversation selected, empty input, send control
enabled, no stream running. The initial children of `chatMessages` come from
the HTML page. -/
def PageState.initial (view : List Elem) : PageState :=
  { currentConversationId := none, inputValue := [], sendBtnDisabled := false,
    chatMessages := view, activeStreams := 0, pollFetches := 0 }

/-! ## Framer lemmas -/

theorem split_cons (sep c : Char) (cs : Str) :
    split sep (c :: cs) = if c = sep then [] :: split sep cs else consHead c (split sep cs) := rfl

theorem split_ne_nil (sep : Char) (s : Str) : split sep s ≠ [] := by
  cases s with
  | nil => simp [split]
  | cons c cs =>
    simp only [split]
    split_ifs
    · simp
    · cases h : split sep cs <;> simp [consHead]

theorem consHead_append (c : Char) (xs ys : List Str) (h : xs ≠ []) :
    consHead c (xs ++ ys) = consHead c xs ++ ys := by
  cases xs with
  | nil => exact absurd rfl h
  | cons x xs => simp [consHead]

theorem dropLast_consHead (c : Char) (xs : List Str) (h : 2 ≤ xs.length) :
    (consHead c xs).dropLast = consHead c xs.dropLast := by
  match xs, h with
  | x :: y :: zs, _ => simp [consHead, List.dropLast]

theorem pop_consHead (c : Char) (xs : List Str) (h : 2 ≤ xs.length) :
    pop (consHead c xs) = pop xs := by
  match xs, h with
  | x :: y :: zs, _ => simp [consHead, pop, List.getLast?_cons_cons]

/-- Splitting a concatenation: the complete segments of the first part are
kept, its last segment is glued to the second part. -/
theorem split_append (sep : Char) (a b : Str) :
    split sep (a ++ b) = (split sep a).dropLast ++ split sep (pop (split sep a) ++ b) := by
  induction a with
  | nil => simp [split, pop]
  | cons c a ih =>
    have hne := split_ne_nil sep a
    by_cases hc : c = sep
    · rw [List.cons_append, split_cons, split_cons, if_pos hc, if_pos hc, ih]
      cases hs : split sep a with
      | nil => exact absurd hs hne
      | cons x xs => simp [pop, List.dropLast, List.getLast?_cons_cons]
    · rw [List.cons_append, split_cons, split_cons, if_neg hc, if_neg hc, ih]
      cases hs : split sep a with
      | nil => exact absurd hs hne
      | cons x xs =>
        cases xs with
        | nil => simp [consHead, pop, split, hc]
        | cons y ys =>
          rw [consHead_append _ _ _ (by simp)]
          rw [dropLast_consHead _ _ (by simp), pop_consHead _ _ (by simp)]

theorem split_of_not_mem (sep : Char) (s : Str) (h : sep ∉ s) : split sep s = [s] := by
  induction s with
  | nil => rfl
  | cons c cs ih =>
    have hc : c ≠ sep := fun e => h (by simp [e])
    have hcs : sep ∉ cs := fun m => h (List.mem_cons_of_mem _ m)
    rw [split_cons, if_neg hc, ih hcs]; rfl

theorem not_mem_of_mem_split (sep : Char) (s l : Str) (h : l ∈ split sep s) : sep ∉ l := by
  induction s generalizing l with
  | nil => simp [split] at h; simp [h]
  | cons c cs ih =>
    rw [split_cons] at h
    by_cases hc : c = sep
    · rw [if_pos hc] at h
      rcases List.mem_cons.1 h with h | h
      · simp [h]
      · exact ih l h
    · rw [if_neg hc] at h
      cases hs : split sep cs with
      | nil => exact absurd hs (split_ne_nil sep cs)
      | cons x xs =>
        rw [hs] at h ih
        simp only [consHead, List.mem_cons] at h
        rcases h with h | h
        · have hx := ih x (by simp)
          rw [h]
          intro m
          rcases List.mem_cons.1 m with m | m
          · exact hc m.symm
          · exact hx m
        · exact ih l (by simp [h])

theorem pop_mem (xs : List Str) (h : xs ≠ []) : pop xs ∈ xs := by
  unfold pop
  rw [List.getLast?_eq_getLast _ h]
  exact List.getLast_mem h

theorem not_mem_pop_split (sep : Char) (s : Str) : sep ∉ pop (split sep s) :=
  not_mem_of_mem_split sep s _ (pop_mem _ (split_ne_nil sep s))

theorem pop_append (xs ys : List Str) (h : ys ≠ []) : pop (xs ++ ys) = pop ys := by
  unfold pop
  rw [List.getLast?_append_of_ne_nil xs h]

theorem dropLast_append_ne_nil (xs ys : List Str) (h : ys ≠ []) :
    (xs ++ ys).dropLast = xs ++ ys.dropLast :=
  List.dropLast_append_of_ne_nil xs h

/-- The read loop in closed form: it hands over every segment of the received
text but the last one, and keeps the last one as the buffer. -/
theorem framerRun_eq (buffer : Str) (chunks : List Str) (hb : '\n' ∉ buffer) :
    framerRun buffer chunks =
      ((split '\n' (buffer ++ chunks.flatten)).dropLast,
       pop (split '\n' (buffer ++ chunks.flatten))) := by
  induction chunks generalizing buffer with
  | nil =>
    simp [framerRun, split_of_not_mem '\n' buffer hb, pop]
  | cons c cs ih =>
    simp only [framerRun, framerStep, ih _ (not_mem_pop_split _ _), List.flatten_cons]
    rw [← List.append_assoc, split_append '\n' (buffer ++ c) cs.flatten]
    rw [dropLast_append_ne_nil _ _ (split_ne_nil _ _), pop_append _ _ (split_ne_nil _ _)]

theorem unlines_cons (l : Str) (ls : List Str) :
    unlines (l :: ls) = l ++ '\n' :: unlines ls := by
  simp [unlines]

theorem unlines_dropLast_split (t : Str) :
    unlines (split '\n' t).dropLast ++ pop (split '\n' t) = t := by
  induction t with
  | nil => simp [split, unlines, pop]
  | cons c cs ih =>
    rw [split_cons]
    cases hs : split '\n' cs with
    | nil => exact absurd hs (split_ne_nil _ cs)
    | cons x xs =>
      rw [hs] at ih
      by_cases hc : c = '\n'
      · rw [if_pos hc, List.dropLast_cons₂, unlines_cons]
        have hp : pop ([] :: x :: xs) = pop (x :: xs) := by
          simp [pop, List.getLast?_cons_cons]
        rw [hp, hc]
        simpa using ih
      · rw [if_neg hc]
        cases xs with
        | nil =>
          simp only [consHead, List.dropLast_single, pop, List.getLast?_singleton,
            Option.getD_some] at ih ⊢
          simpa [unlines] using ih
        | cons y ys =>
          rw [dropLast_consHead _ _ (by simp), pop_consHead _ _ (by simp)]
          rw [List.dropLast_cons₂] at ih ⊢
          simp only [consHead, unlines_cons] at ih ⊢
          simpa using ih

theorem unlines_nil_or_ends (ls : List Str) :
    unlines ls = [] ∨ ∃ y, unlines ls = y ++ ['\n'] := by
  rcases List.eq_nil_or_concat ls with h | ⟨ls', l, h⟩
  · left; simp [h, unlines]
  · right
    refine ⟨unlines ls' ++ l, ?_⟩
    simp [h, unlines]

theorem afterLastNewline_append (x b : Str)
    (hx : x = [] ∨ ∃ y, x = y ++ ['\n']) (hb : '\n' ∉ b) :
    afterLastNewline (x ++ b) = b := by
  unfold afterLastNewline
  have hall : ∀ a ∈ b.reverse, (decide (a ≠ '\n')) = true := by
    intro a ha
    have : a ∈ b := List.mem_reverse.1 ha
    simp only [ne_eq, decide_not, Bool.not_eq_true', decide_eq_false_iff_not]
    intro e; exact hb (e ▸ this)
  rw [List.reverse_append, List.takeWhile_append_of_pos hall]
  rcases hx with hx | ⟨y, hx⟩
  · simp [hx]
  · simp [hx]

theorem through_append_after (t : Str) :
    throughLastNewline t ++ afterLastNewline t = t := by
  unfold throughLastNewline afterLastNewline
  rw [← List.reverse_append, List.takeWhile_append_dropWhile, List.reverse_reverse]

theorem pop_split_eq_afterLastNewline (t : Str) :
    pop (split '\n' t) = afterLastNewline t := by
  have h := unlines_dropLast_split t
  have h2 := afterLastNewline_append _ _ (unlines_nil_or_ends (split '\n' t).dropLast)
    (not_mem_pop_split '\n' t)
  rw [h] at h2
  exact h2.symm

theorem unlines_dropLast_split_eq (t : Str) :
    unlines (split '\n' t).dropLast = throughLastNewline t := by
  have h := unlines_dropLast_split t
  have h2 := through_append_after t
  rw [pop_split_eq_afterLastNewline] at h
  exact List.append_cancel_right (h.trans h2.symm)

theorem not_mem_afterLastNewline (t : Str) : '\n' ∉ afterLastNewline t := by
  rw [← pop_split_eq_afterLastNewline]
  exact not_mem_pop_split _ _

theorem afterLastNewline_through (t : Str) :
    afterLastNewline (throughLastNewline t) = [] := by
  have h := afterLastNewline_append (throughLastNewline t) [] ?_ (by simp)
  · simpa using h
  · rw [← unlines_dropLast_split_eq]
    exact unlines_nil_or_ends _

theorem dropLast_split_through (t : Str) :
    (split '\n' (throughLastNewline t)).dropLast = (split '\n' t).dropLast := by
  have h := split_append '\n' (throughLastNewline t) (afterLastNewline t)
  rw [through_append_after, pop_split_eq_afterLastNewline, afterLastNewline_through,
    List.nil_append, split_of_not_mem _ _ (not_mem_afterLastNewline t)] at h
  rw [h, List.dropLast_concat]

theorem emittedLines_eq (chunks : List Str) :
    emittedLines chunks = (split '\n' chunks.flatten).dropLast := by
  unfold emittedLines
  rw [framerRun_eq [] chunks (by simp)]
  simp

theorem finalBuffer_eq (chunks : List Str) :
    finalBuffer chunks = afterLastNewline chunks.flatten := by
  unfold finalBuffer
  rw [framerRun_eq [] chunks (by simp), ← pop_split_eq_afterLastNewline]
  simp

theorem processLines_append (parse : Str → Except Str StreamEvent) (st : LoopState)
    (xs ys : List Str) :
    processLines parse st (xs ++ ys) = processLines parse (processLines parse st xs) ys := by
  simp [processLines, List.foldl_append]

/-- The read loop processes, in order, exactly the lines the framer hands
over; the per-chunk grouping does not matter. -/
theorem readLoop_eq (parse : Str → Except Str StreamEvent) (buffer : Str) (st : LoopState)
    (chunks : List Str) :
    readLoop parse buffer st chunks =
      ((framerRun buffer chunks).2, processLines parse st (framerRun buffer chunks).1) := by
  induction chunks generalizing buffer st with
  | nil => simp [readLoop, framerRun, processLines]
  | cons c cs ih => simp [readLoop, framerRun, ih, processLines_append]

theorem runStream_eq (parse : Str → Except Str StreamEvent) (chunks : List Str) :
    runStream parse chunks =
      processLines parse { render := RenderState.empty, diagnostics := [] }
        (emittedLines chunks) := by
  simp [runStream, readLoop_eq, emittedLines]

theorem afterLastNewline_of_ends (t : Str) (h : t.getLast? = some '\n') :
    afterLastNewline t = [] := by
  rcases List.eq_nil_or_concat t with h0 | ⟨y, c, h0⟩
  · simp [h0, afterLastNewline]
  · subst h0
    simp at h
    subst h
    simpa using afterLastNewline_append (y ++ ['\n']) [] (Or.inr ⟨y, rfl⟩) (by simp)

/-! ## Claims on the line framer -/

/-- C1. Chunk-boundary independence of the line framer: for a text that ends
in a newline and any two ways `cs1`, `cs2` of cutting it into chunks, the read
loop hands the same lines, in the same order, to the line loop (they are the
segments of the text before each newline), nothing is held back in the buffer
at the end, and the whole stream ends in the same state. -/
theorem framer_chunk_boundary_independence (parse : Str → Except Str StreamEvent)
    (text : Str) (cs1 cs2 : List Str)
    (hend : text.getLast? = some '\n')
    (h1 : cs1.flatten = text) (h2 : cs2.flatten = text) :
    emittedLines cs1 = emittedLines cs2 ∧
    emittedLines cs1 = (split '\n' text).dropLast ∧
    finalBuffer cs1 = [] ∧ finalBuffer cs2 = [] ∧
    runStream parse cs1 = runStream parse cs2 := by
  have e1 := emittedLines_eq cs1
  have e2 := emittedLines_eq cs2
  rw [h1] at e1
  rw [h2] at e2
  refine ⟨e1.trans e2.symm, e1, ?_, ?_, ?_⟩
  · rw [finalBuffer_eq, h1, afterLastNewline_of_ends text hend]
  · rw [finalBuffer_eq, h2, afterLastNewline_of_ends text hend]
  · rw [runStream_eq, runStream_eq, e1, e2]

/-- Witness of C1: the text of two records cut at record boundaries and cut
in the middle of both records. -/
theorem framer_chunk_boundary_independence_witness :
    emittedLines ["ab\n".toList, "cd\n".toList] = emittedLines ["a".toList, "b\nc".toList, "d\n".toList] ∧
    emittedLines ["ab\n".toList, "cd\n".toList] = (split '\n' "ab\ncd\n".toList).dropLast ∧
    finalBuffer ["ab\n".toList, "cd\n".toList] = [] ∧
    finalBuffer ["a".toList, "b\nc".toList, "d\n".toList] = [] ∧
    runStream (fun _ => Except.ok StreamEvent.other) ["ab\n".toList, "cd\n".toList] =
      runStream (fun _ => Except.ok StreamEvent.other)
        ["a".toList, "b\nc".toList, "d\n".toList] :=
  framer_chunk_boundary_independence (fun _ => Except.ok StreamEvent.other)
    "ab\ncd\n".toList ["ab\n".toList, "cd\n".toList]
    ["a".toList, "b\nc".toList, "d\n".toList] (by decide) (by decide) (by decide)

/-- C9. A dangling final fragment is never delivered. For every chunk
sequence (in particular one whose text does not end in a newline): the text
after the last newline is what is left in the buffer when the stream ends;
the lines handed to the line loop spell exactly the text up to the last
newline and are the lines of that text alone; the state at the end of the
stream is the state the text without its fragment produces; and within a
stream a chunk without newline hands over no line. -/
theorem dangling_fragment_not_delivered (parse : Str → Except Str StreamEvent)
    (chunks : List Str) :
    finalBuffer chunks = afterLastNewline chunks.flatten ∧
    unlines (emittedLines chunks) ++ afterLastNewline chunks.flatten = chunks.flatten ∧
    unlines (emittedLines chunks) = throughLastNewline chunks.flatten ∧
    emittedLines chunks = emittedLines [throughLastNewline chunks.flatten] ∧
    runStream parse chunks = runStream parse [throughLastNewline chunks.flatten] ∧
    (∀ chunk : Str, '\n' ∉ chunk →
      (framerStep (finalBuffer chunks) chunk).1 = [] ∧
      emittedLines (chunks ++ [chunk]) = emittedLines chunks) := by
  have hE := emittedLines_eq chunks
  have hT : emittedLines [throughLastNewline chunks.flatten] = emittedLines chunks := by
    rw [emittedLines_eq, emittedLines_eq]
    simpa using dropLast_split_through chunks.flatten
  refine ⟨finalBuffer_eq chunks, ?_, ?_, hT.symm, ?_, ?_⟩
  · rw [hE, ← pop_split_eq_afterLastNewline]
    exact unlines_dropLast_split _
  · rw [hE]
    exact unlines_dropLast_split_eq _
  · rw [runStream_eq, runStream_eq, hT]
  · intro chunk hc
    have hb : '\n' ∉ finalBuffer chunks ++ chunk := by
      rw [finalBuffer_eq]
      intro m
      rcases List.mem_append.1 m with m | m
      · exact not_mem_afterLastNewline _ m
      · exact hc m
    have h1 : (framerStep (finalBuffer chunks) chunk).1 = [] := by
      simp [framerStep, split_of_not_mem _ _ hb]
    refine ⟨h1, ?_⟩
    rw [emittedLines_eq, emittedLines_eq, List.flatten_append, split_append]
    rw [pop_split_eq_afterLastNewline, ← finalBuffer_eq]
    simp [split_of_not_mem _ _ hb]

/-! ## Lemmas on the event dispatch -/

theorem insertBefore_append_ref (x ref : Node) (l : List Node) (h : ref ∉ l) :
    insertBefore x ref (l ++ [ref]) = l ++ [x, ref] := by
  induction l with
  | nil => simp [insertBefore]
  | cons c cs ih =>
    have hc : c ≠ ref := fun e => h (by simp [e])
    have hcs : ref ∉ cs := fun m => h (List.mem_cons_of_mem _ m)
    simp [insertBefore, hc, ih hcs]

theorem appendChild_move (x ref : Node) (l : List Node) (hx : x ∉ l) (hr : ref ∉ l)
    (hne : x ≠ ref) :
    appendChild ref (appendChild x (l ++ [ref])) = l ++ [x, ref] := by
  have hx1 : ∀ a ∈ l, a ≠ x := fun a ha e => hx (e ▸ ha)
  have hr1 : ∀ a ∈ l, a ≠ ref := fun a ha e => hr (e ▸ ha)
  have f1 : l.filter (fun c => decide (c ≠ x)) = l :=
    List.filter_eq_self.2 (fun a ha => by simpa using hx1 a ha)
  have f2 : l.filter (fun c => decide (c ≠ ref)) = l :=
    List.filter_eq_self.2 (fun a ha => by simpa using hr1 a ha)
  simp only [appendChild, List.filter_append, f1, f2]
  simp [List.filter_cons, hne, Ne.symm hne, f2]

theorem updateBlock_length_append (f : ToolBlock → ToolBlock) (l : List ToolBlock)
    (b : ToolBlock) : updateBlock f l.length (l ++ [b]) = l ++ [f b] := by
  induction l with
  | nil => rfl
  | cons c cs ih => simp [updateBlock, ih]

theorem updateBlock_length (f : ToolBlock → ToolBlock) (i : Nat) (l : List ToolBlock) :
    (updateBlock f i l).length = l.length := by
  induction l generalizing i with
  | nil => cases i <;> rfl
  | cons c cs ih => cases i <;> simp [updateBlock, ih]

theorem hasIcon_length_append (l : List ToolBlock) (b : ToolBlock) :
    hasIcon l.length (l ++ [b]) = b.icon := by
  simp [hasIcon]

theorem openBlock_append (l : List ToolBlock) (b : ToolBlock) :
    openBlock (l ++ [b]) = if b.done then Slot.null else Slot.block l.length := by
  simp [openBlock]

theorem openBlock_eq_block (blocks : List ToolBlock) (i : Nat)
    (h : openBlock blocks = Slot.block i) :
    ∃ l b, blocks = l ++ [b] ∧ b.done = false ∧ i = l.length := by
  rcases List.eq_nil_or_concat blocks with h0 | ⟨l, b, h0⟩
  · simp [h0, openBlock] at h
  · rw [List.concat_eq_append] at h0
    subst h0
    rw [openBlock_append] at h
    refine ⟨l, b, rfl, ?_, ?_⟩
    · cases hb : b.done
      · rfl
      · simp [hb] at h
    · cases hb : b.done
      · simp [hb] at h; exact h.symm
      · simp [hb] at h

theorem tool_not_mem_range (n : Nat) : Node.tool n ∉ (List.range n).map Node.tool := by
  simp

theorem text_not_mem_range (n : Nat) : Node.text ∉ (List.range n).map Node.tool := by
  simp

theorem wellFormed_empty : WellFormed RenderState.empty := by
  simp [WellFormed, RenderState.empty]

theorem slotTracksOpen_empty : SlotTracksOpen RenderState.empty := by
  simp [SlotTracksOpen, RenderState.empty, openBlock]

/-- Every event, raising or not, keeps the order of the view. -/
theorem wellFormed_applyEvent (ev : StreamEvent) (s : RenderState) (h : WellFormed s) :
    WellFormed (applyEvent ev s) := by
  unfold WellFormed at h ⊢
  cases ev with
  | content data => exact h
  | error content => exact h
  | other => exact h
  | tool_start_throws => exact h
  | tool_start tool args built =>
    have hkids : ∀ n : Nat,
        (List.range (n + 1)).map Node.tool ++ [Node.text] =
          (List.range n).map Node.tool ++ [Node.tool n, Node.text] := by
      intro n; simp [List.range_succ]
    simp only [applyEvent, dispatch]
    by_cases hf : s.fullResponse = []
    · simp only [hf, if_true, List.length_append, List.length_singleton]
      rw [h, hkids, insertBefore_append_ref _ _ _ (text_not_mem_range _)]
    · simp only [hf, if_false, List.length_append, List.length_singleton]
      rw [h, hkids, appendChild_move _ _ _ (tool_not_mem_range _) (text_not_mem_range _)
        (by simp)]
  | tool_end =>
    simp only [applyEvent, dispatch]
    cases hcur : s.currentToolCallDiv with
    | null => exact h
    | detached => exact h
    | block id =>
      by_cases hi : hasIcon id s.toolBlocks = true
      · simpa [hi, updateBlock_length] using h
      · simpa [hi] using h

/-- An intact event keeps the variable on the last container when that one is
pending, and on `null` otherwise. -/
theorem slotTracksOpen_applyEvent (ev : StreamEvent) (s : RenderState)
    (hev : intact ev = true) (h : SlotTracksOpen s) : SlotTracksOpen (applyEvent ev s) := by
  obtain ⟨ho, hall⟩ := h
  cases ev with
  | content data => exact ⟨ho, hall⟩
  | error content => exact ⟨ho, hall⟩
  | other => exact ⟨ho, hall⟩
  | tool_start_throws => simp [intact] at hev
  | tool_start tool args built =>
    have hicon : built.icon = true := by simpa [intact] using hev
    simp only [applyEvent, dispatch, SlotTracksOpen]
    by_cases hf : s.fullResponse = []
    · simp only [hf, if_true]
      refine ⟨by simp [openBlock_append], ?_⟩
      intro b hb
      rcases List.mem_append.1 hb with hb | hb
      · exact hall b hb
      · simp at hb; simp [hb, hicon]
    · simp only [hf, if_false]
      refine ⟨by simp [openBlock_append], ?_⟩
      intro b hb
      rcases List.mem_append.1 hb with hb | hb
      · exact hall b hb
      · simp at hb; simp [hb, hicon]
  | tool_end =>
    simp only [applyEvent, dispatch, SlotTracksOpen]
    cases hcur : s.currentToolCallDiv with
    | null => exact ⟨by rw [← ho, hcur], hall⟩
    | detached =>
      rw [hcur] at ho
      rcases List.eq_nil_or_concat s.toolBlocks with h0 | ⟨l, b, h0⟩
      · simp [h0, openBlock] at ho
      · rw [List.concat_eq_append] at h0
        rw [h0, openBlock_append] at ho
        cases hb : b.done <;> simp [hb] at ho
    | block id =>
      rw [hcur] at ho
      obtain ⟨l, b, hb, _, hid⟩ := openBlock_eq_block _ _ ho.symm
      have hbi : b.icon = true := hall b (by simp [hb])
      simp only [hb, hid, hasIcon_length_append, hbi, if_true, updateBlock_length_append,
        openBlock_append]
      refine ⟨by simp, ?_⟩
      intro c hc
      rcases List.mem_append.1 hc with hc | hc
      · exact hall c (by simp [hb, hc])
      · simp at hc; simp [hc, hbi]

theorem applyEvents_append (evs1 evs2 : List StreamEvent) (s : RenderState) :
    applyEvents (evs1 ++ evs2) s = applyEvents evs2 (applyEvents evs1 s) := by
  simp [applyEvents, List.foldl_append]

theorem applyEvents_cons (ev : StreamEvent) (evs : List StreamEvent) (s : RenderState) :
    applyEvents (ev :: evs) s = applyEvents evs (applyEvent ev s) := rfl

theorem wellFormed_applyEvents (evs : List StreamEvent) (s : RenderState) (h : WellFormed s) :
    WellFormed (applyEvents evs s) := by
  induction evs generalizing s with
  | nil => exact h
  | cons ev evs ih => exact ih _ (wellFormed_applyEvent ev s h)

theorem slotTracksOpen_applyEvents (evs : List StreamEvent) (s : RenderState)
    (hevs : ∀ ev ∈ evs, intact ev = true) (h : SlotTracksOpen s) :
    SlotTracksOpen (applyEvents evs s) := by
  induction evs generalizing s with
  | nil => exact h
  | cons ev evs ih =>
    exact ih _ (fun e he => hevs e (List.mem_cons_of_mem _ he))
      (slotTracksOpen_applyEvent ev s (hevs ev (List.mem_cons_self _ _)) h)

/-- The reference node of `insertBefore` is always present. -/
theorem text_mem_children (evs : List StreamEvent) :
    Node.text ∈ (applyEvents evs RenderState.empty).children := by
  have h := wellFormed_applyEvents evs _ wellFormed_empty
  unfold WellFormed at h
  rw [h]
  simp

theorem fullResponse_applyEvent (ev : StreamEvent) (s : RenderState) :
    (applyEvent ev s).fullResponse = s.fullResponse ++ contribution ev := by
  cases ev with
  | content data => rfl
  | error content => simp [applyEvent, dispatch, contribution]
  | other => simp [applyEvent, dispatch, contribution]
  | tool_start_throws => simp [applyEvent, dispatch, contribution]
  | tool_start tool args built =>
    simp only [applyEvent, dispatch]
    by_cases hf : s.fullResponse = [] <;> simp [hf, contribution]
  | tool_end =>
    simp only [applyEvent, dispatch]
    cases s.currentToolCallDiv with
    | null => simp [contribution]
    | detached => simp [contribution]
    | block id => by_cases hi : hasIcon id s.toolBlocks = true <;> simp [hi, contribution]

theorem fullResponse_applyEvents (evs : List StreamEvent) (s : RenderState) :
    (applyEvents evs s).fullResponse = s.fullResponse ++ (evs.map contribution).flatten := by
  induction evs generalizing s with
  | nil => simp [applyEvents]
  | cons ev evs ih =>
    rw [applyEvents_cons, ih, fullResponse_applyEvent]
    simp

theorem blockInfo_applyEvent (ev : StreamEvent) (s : RenderState) :
    (applyEvent ev s).toolBlocks.map (fun b => (b.tool, b.args)) =
      s.toolBlocks.map (fun b => (b.tool, b.args)) ++ (startInfo ev).toList := by
  have hupd : ∀ (i : Nat) (l : List ToolBlock),
      (updateBlock (fun b => { b with done := true }) i l).map (fun b => (b.tool, b.args)) =
        l.map (fun b => (b.tool, b.args)) := by
    intro i l
    induction l generalizing i with
    | nil => cases i <;> rfl
    | cons c cs ih => cases i <;> simp [updateBlock, ih]
  cases ev with
  | content data => simp [applyEvent, dispatch, startInfo]
  | error content => simp [applyEvent, dispatch, startInfo]
  | other => simp [applyEvent, dispatch, startInfo]
  | tool_start_throws => simp [applyEvent, dispatch, startInfo]
  | tool_start tool args built =>
    simp only [applyEvent, dispatch]
    by_cases hf : s.fullResponse = [] <;> simp [hf, startInfo]
  | tool_end =>
    simp only [applyEvent, dispatch]
    cases s.currentToolCallDiv with
    | null => simp [startInfo]
    | detached => simp [startInfo]
    | block id => by_cases hi : hasIcon id s.toolBlocks = true <;> simp [hi, startInfo, hupd]

theorem blockInfo_applyEvents (evs : List StreamEvent) (s : RenderState) :
    (applyEvents evs s).toolBlocks.map (fun b => (b.tool, b.args)) =
      s.toolBlocks.map (fun b => (b.tool, b.args)) ++ evs.filterMap startInfo := by
  induction evs generalizing s with
  | nil => simp [applyEvents]
  | cons ev evs ih =>
    rw [applyEvents_cons, ih, blockInfo_applyEvent]
    cases h : startInfo ev <;> simp [List.filterMap_cons, h]

/-! ## Claims on the event dispatch -/

/-- C4. The text region stays last: after any sequence of stream events on a
fresh assistant message view, the children of the view are the tool-call
containers created so far, in creation order, followed by the text region;
the containers are those of the `tool_start` events, in arrival order. This
holds whether `fullResponse` was empty or not at each `tool_start`: after
`tool_start, tool_end` the container precedes the text region, and after
`content a, tool_start t, content b` the text region follows the container
of `t`. -/
theorem text_region_stays_last (evs : List StreamEvent) :
    (applyEvents evs RenderState.empty).children =
      (List.range (applyEvents evs RenderState.empty).toolBlocks.length).map Node.tool
        ++ [Node.text] ∧
    (applyEvents evs RenderState.empty).toolBlocks.map (fun b => (b.tool, b.args)) =
      evs.filterMap startInfo ∧
    (applyEvents [StreamEvent.tool_start "t".toList "x".toList Built.plain,
      StreamEvent.tool_end] RenderState.empty).children = [Node.tool 0, Node.text] ∧
    (applyEvents [StreamEvent.content "a".toList,
      StreamEvent.tool_start "t".toList "x".toList Built.plain,
      StreamEvent.content "b".toList] RenderState.empty).children = [Node.tool 0, Node.text] := by
  refine ⟨wellFormed_applyEvents evs _ wellFormed_empty, ?_, by decide, by decide⟩
  simpa [RenderState.empty] using blockInfo_applyEvents evs RenderState.empty

/-- C5. The accumulated text is the in-order concatenation of contributions:
after any sequence of events on an empty render state, `fullResponse` is the
concatenation, in arrival order, of `data` for each `content` event and of the
error mark followed by `content` for each `error` event, the other events
adding nothing; one more event only extends the text; and the five-event
example gives "Hello\n\n**Error:** boom". -/
theorem accumulated_text_is_concatenation (evs : List StreamEvent) :
    (applyEvents evs RenderState.empty).fullResponse = (evs.map contribution).flatten ∧
    (∀ tool args built, contribution (StreamEvent.tool_start tool args built) = []) ∧
    contribution StreamEvent.tool_start_throws = [] ∧
    contribution StreamEvent.tool_end = [] ∧ contribution StreamEvent.other = [] ∧
    (∀ ev : StreamEvent, ∃ t : Str,
      (applyEvents (evs ++ [ev]) RenderState.empty).fullResponse =
        (applyEvents evs RenderState.empty).fullResponse ++ t) ∧
    (applyEvents [StreamEvent.content "He".toList, StreamEvent.content "llo".toList,
      StreamEvent.tool_start "x".toList "null".toList Built.plain, StreamEvent.tool_end,
      StreamEvent.error "boom".toList] RenderState.empty).fullResponse =
        "Hello\n\n**Error:** boom".toList := by
  refine ⟨?_, fun _ _ _ => rfl, rfl, rfl, rfl, ?_, by decide⟩
  · simpa [RenderState.empty] using fullResponse_applyEvents evs RenderState.empty
  · intro ev
    refine ⟨contribution ev, ?_⟩
    rw [applyEvents_append]
    simp [applyEvents, fullResponse_applyEvent]

/-- Counterexamples to C6 as stated. After `tool_start a, tool_start b,
tool_end` the most recently started block that has not ended is block 0, yet
one more `tool_end` changes nothing and block 0 stays pending. After a
`tool_start` whose tool name is markup that swallows the status icon (such as
`<textarea>`), `tool_end` raises on the missing icon: the block stays
pending and the variable stays on it. After a `tool_start` whose template
literal raises, the variable is on an empty container and `tool_end` leaves
the earlier block pending. -/
theorem tool_end_skips_earlier_pending_block :
    lastPending (applyEvents [StreamEvent.tool_start "a".toList "1".toList Built.plain,
      StreamEvent.tool_start "b".toList "2".toList Built.plain, StreamEvent.tool_end]
      RenderState.empty).toolBlocks = some 0 ∧
    applyEvent StreamEvent.tool_end
      (applyEvents [StreamEvent.tool_start "a".toList "1".toList Built.plain,
        StreamEvent.tool_start "b".toList "2".toList Built.plain, StreamEvent.tool_end]
        RenderState.empty) =
      applyEvents [StreamEvent.tool_start "a".toList "1".toList Built.plain,
        StreamEvent.tool_start "b".toList "2".toList Built.plain, StreamEvent.tool_end]
        RenderState.empty ∧
    (applyEvents [StreamEvent.tool_start "a".toList "1".toList Built.plain,
      StreamEvent.tool_start "b".toList "2".toList Built.plain, StreamEvent.tool_end,
      StreamEvent.tool_end] RenderState.empty).toolBlocks.map ToolBlock.done =
      [false, true] ∧
    applyEvents [StreamEvent.tool_start "<textarea>".toList "1".toList
        { icon := false, argsDiv := none }, StreamEvent.tool_end] RenderState.empty =
      applyEvents [StreamEvent.tool_start "<textarea>".toList "1".toList
        { icon := false, argsDiv := none }] RenderState.empty ∧
    (applyEvents [StreamEvent.tool_start "<textarea>".toList "1".toList
        { icon := false, argsDiv := none }, StreamEvent.tool_end]
      RenderState.empty).toolBlocks.map ToolBlock.done = [false] ∧
    (applyEvents [StreamEvent.tool_start "<textarea>".toList "1".toList
        { icon := false, argsDiv := none }, StreamEvent.tool_end]
      RenderState.empty).currentToolCallDiv = Slot.block 0 ∧
    (applyEvents [StreamEvent.tool_start "a".toList "1".toList Built.plain,
      StreamEvent.tool_start_throws, StreamEvent.tool_end]
      RenderState.empty).toolBlocks.map ToolBlock.done = [false] ∧
    (applyEvents [StreamEvent.tool_start "a".toList "1".toList Built.plain,
      StreamEvent.tool_start_throws, StreamEvent.tool_end]
      RenderState.empty).currentToolCallDiv = Slot.detached := by
  decide

/-- C6 as amended. For a sequence of stream events in which every
`tool_start` builds its container intact (the tool name converts to text and
the container keeps its status icon), applied in order to an empty render
state: the variable `currentToolCallDiv` refers to the most recently started
block exactly when that block has not ended. A `tool_end` then marks that
block done and clears the variable, changing nothing else: every block keeps
its tool name, arguments and argument visibility, every other block keeps its
status, and the text and the order of the view are the same. When the most
recently started block has already ended, or no block exists, `tool_end`
changes nothing at all. In both cases `tool_end` raises nothing.
`tool_start, tool_end` on an empty state gives exactly one block, with status
done. -/
theorem tool_end_completes_open_block (evs : List StreamEvent)
    (hevs : ∀ ev ∈ evs, intact ev = true) :
    (applyEvents evs RenderState.empty).currentToolCallDiv =
      openBlock (applyEvents evs RenderState.empty).toolBlocks ∧
    (∀ (l : List ToolBlock) (b : ToolBlock),
      (applyEvents evs RenderState.empty).toolBlocks = l ++ [b] → b.done = false →
      applyEvent StreamEvent.tool_end (applyEvents evs RenderState.empty) =
        { applyEvents evs RenderState.empty with
          toolBlocks := l ++ [{ b with done := true }], currentToolCallDiv := Slot.null }) ∧
    ((∀ b, (applyEvents evs RenderState.empty).toolBlocks.getLast? = some b → b.done = true) →
      applyEvent StreamEvent.tool_end (applyEvents evs RenderState.empty) =
        applyEvents evs RenderState.empty) ∧
    (dispatch StreamEvent.tool_end (applyEvents evs RenderState.empty)).2 = none ∧
    (applyEvents [StreamEvent.tool_start "t".toList "x".toList Built.plain,
      StreamEvent.tool_end] RenderState.empty).toolBlocks =
        [{ tool := "t".toList, args := "x".toList, icon := true, done := true,
           argsDiv := some false }] := by
  obtain ⟨hw, hall⟩ := slotTracksOpen_applyEvents evs _ hevs slotTracksOpen_empty
  have hopen : ∀ (l : List ToolBlock) (b : ToolBlock),
      (applyEvents evs RenderState.empty).toolBlocks = l ++ [b] → b.done = false →
      (applyEvents evs RenderState.empty).currentToolCallDiv = Slot.block l.length ∧
      hasIcon l.length (applyEvents evs RenderState.empty).toolBlocks = true := by
    intro l b hl hb
    refine ⟨by rw [hw, hl, openBlock_append, hb]; simp, ?_⟩
    rw [hl, hasIcon_length_append]
    exact hall b (by simp [hl])
  have hclosed : (∀ b, (applyEvents evs RenderState.empty).toolBlocks.getLast? = some b →
      b.done = true) → (applyEvents evs RenderState.empty).currentToolCallDiv = Slot.null := by
    intro hdone
    rw [hw]
    unfold openBlock
    cases hg : (applyEvents evs RenderState.empty).toolBlocks.getLast? with
    | none => rfl
    | some b => simp [hdone b hg]
  refine ⟨hw, ?_, ?_, ?_, by decide⟩
  · intro l b hl hb
    obtain ⟨ho, hi⟩ := hopen l b hl hb
    simp only [applyEvent, dispatch, ho, hi, if_true]
    simp only [hl, updateBlock_length_append]
  · intro hdone
    simp only [applyEvent, dispatch, hclosed hdone]
  · rcases List.eq_nil_or_concat (applyEvents evs RenderState.empty).toolBlocks with
      h0 | ⟨l, b, h0⟩
    · have hn := hclosed (fun b hb => by simp [h0] at hb)
      simp only [dispatch, hn]
    · rw [List.concat_eq_append] at h0
      cases hb : b.done with
      | false =>
        obtain ⟨ho, hi⟩ := hopen l b h0 hb
        simp only [dispatch, ho, hi, if_true]
      | true =>
        have hn := hclosed (fun c hc => by
          rw [h0] at hc
          simp at hc
          rw [← hc, hb])
        simp only [dispatch, hn]

/-- Witness of C6 as amended: two intact `tool_start` events; the variable is
on the second block, which `tool_end` then marks done. -/
theorem tool_end_completes_open_block_witness :
    (∀ ev ∈ [StreamEvent.tool_start "a".toList "1".toList Built.plain,
      StreamEvent.tool_start "b".toList "2".toList Built.plain], intact ev = true) ∧
    (applyEvents [StreamEvent.tool_start "a".toList "1".toList Built.plain,
      StreamEvent.tool_start "b".toList "2".toList Built.plain]
      RenderState.empty).currentToolCallDiv =
      openBlock (applyEvents [StreamEvent.tool_start "a".toList "1".toList Built.plain,
        StreamEvent.tool_start "b".toList "2".toList Built.plain]
        RenderState.empty).toolBlocks ∧
    (dispatch StreamEvent.tool_end
      (applyEvents [StreamEvent.tool_start "a".toList "1".toList Built.plain,
        StreamEvent.tool_start "b".toList "2".toList Built.plain] RenderState.empty)).2 = none :=
  ⟨by decide,
   (tool_end_completes_open_block
     [StreamEvent.tool_start "a".toList "1".toList Built.plain,
      StreamEvent.tool_start "b".toList "2".toList Built.plain] (by decide)).1,
   (tool_end_completes_open_block
     [StreamEvent.tool_start "a".toList "1".toList Built.plain,
      StreamEvent.tool_start "b".toList "2".toList Built.plain] (by decide)).2.2.2.1⟩

/-- C10 fails on the code: the header handler reads the shared variable
`currentToolCallDiv`, not the container it was installed on. After
`tool_start t, tool_end` the variable is `null`, so activating the header of
block 0 raises a `TypeError` and flips nothing; after `tool_start a,
tool_start b` activating the header of block 0 shows the arguments of block 1
and leaves those of block 0 hidden. -/
theorem header_click_reads_shared_variable :
    headerClick 0 (applyEvents [StreamEvent.tool_start "t".toList "x".toList Built.plain,
      StreamEvent.tool_end] RenderState.empty) = Except.error "TypeError".toList ∧
    (headerClick 0 (applyEvents [StreamEvent.tool_start "a".toList "1".toList Built.plain,
      StreamEvent.tool_start "b".toList "2".toList Built.plain]
      RenderState.empty)).toOption.map
        (fun s => s.toolBlocks.map ToolBlock.argsShown) = some [false, true] :=
  ⟨rfl, rfl⟩

/-! ## Claims on the per-line try/catch -/

theorem render_processLine_congr (parse : Str → Except Str StreamEvent) (st st1 : LoopState)
    (line : Str) (h : st.render = st1.render) :
    (processLine parse st line).render = (processLine parse st1 line).render := by
  unfold processLine
  by_cases hb : trim line = []
  · simp [hb, h]
  · simp only [hb, if_false, h]
    cases (tryBody parse line st1.render).2 <;> rfl

theorem render_processLines_congr (parse : Str → Except Str StreamEvent) (st st1 : LoopState)
    (lines : List Str) (h : st.render = st1.render) :
    (processLines parse st lines).render = (processLines parse st1 lines).render := by
  induction lines generalizing st st1 with
  | nil => simpa [processLines] using h
  | cons l ls ih =>
    simp only [processLines, List.foldl_cons] at ih ⊢
    exact ih _ _ (render_processLine_congr parse st st1 l h)

/-- C7. A corrupt line is skipped without aborting the turn. For lines
`ls1 ++ [bad] ++ ls2` where `bad` is not blank and the `try` block raises on
it: the iteration on `bad` only records one diagnostic and leaves the render
state and view untouched, the loop goes on, and the render state and view at
the end are those of `ls1 ++ ls2`. A blank or whitespace-only line has no
effect at all. -/
theorem corrupt_line_is_skipped (parse : Str → Except Str StreamEvent) (st : LoopState)
    (ls1 ls2 : List Str) (bad e : Str)
    (hnb : trim bad ≠ []) (hbad : parse bad = Except.error e) :
    (∀ st0 : LoopState,
      processLine parse st0 bad = { st0 with diagnostics := st0.diagnostics ++ [bad] }) ∧
    (processLines parse st (ls1 ++ [bad] ++ ls2)).render =
      (processLines parse st (ls1 ++ ls2)).render ∧
    (∀ blank : Str, trim blank = [] →
      processLines parse st (ls1 ++ [blank] ++ ls2) = processLines parse st (ls1 ++ ls2)) := by
  have hone : ∀ st0 : LoopState,
      processLine parse st0 bad = { st0 with diagnostics := st0.diagnostics ++ [bad] } := by
    intro st0
    simp [processLine, hnb, tryBody, hbad]
  refine ⟨hone, ?_, ?_⟩
  · have hc := render_processLines_congr parse
      (processLine parse (processLines parse st ls1) bad) (processLines parse st ls1) ls2
      (by rw [hone])
    simpa [processLines, List.foldl_append] using hc
  · intro blank hblank
    rw [List.append_assoc, processLines_append, processLines_append]
    simp [processLines, processLine, hblank]

/-- Witness of C7: a line that is not a record between two content lines. -/
theorem corrupt_line_is_skipped_witness :
    (∀ st0 : LoopState,
      processLine (fun l => if l = "oops".toList then Except.error "SyntaxError".toList
          else Except.ok (StreamEvent.content l)) st0 "oops".toList =
        { st0 with diagnostics := st0.diagnostics ++ ["oops".toList] }) ∧
    (processLines (fun l => if l = "oops".toList then Except.error "SyntaxError".toList
        else Except.ok (StreamEvent.content l))
      { render := RenderState.empty, diagnostics := [] }
      (["a".toList] ++ ["oops".toList] ++ ["b".toList])).render =
      (processLines (fun l => if l = "oops".toList then Except.error "SyntaxError".toList
        else Except.ok (StreamEvent.content l))
        { render := RenderState.empty, diagnostics := [] }
        (["a".toList] ++ ["b".toList])).render ∧
    (∀ blank : Str, trim blank = [] →
      processLines (fun l => if l = "oops".toList then Except.error "SyntaxError".toList
          else Except.ok (StreamEvent.content l))
        { render := RenderState.empty, diagnostics := [] }
        (["a".toList] ++ [blank] ++ ["b".toList]) =
      processLines (fun l => if l = "oops".toList then Except.error "SyntaxError".toList
          else Except.ok (StreamEvent.content l))
        { render := RenderState.empty, diagnostics := [] }
        (["a".toList] ++ ["b".toList])) :=
  corrupt_line_is_skipped
    (fun l => if l = "oops".toList then Except.error "SyntaxError".toList
      else Except.ok (StreamEvent.content l))
    { render := RenderState.empty, diagnostics := [] }
    ["a".toList] ["b".toList] "oops".toList "SyntaxError".toList (by decide) rfl

/-! ## Claims on the poll callback and the send control -/

/-- C2 fails on the code. First, a view that shows the welcome placeholder
and two message elements (an empty conversation was selected, then "hi" was
sent), with three messages fetched: the message at index 2 is appended, but
the container is cleared first, so one message element is rendered instead of
three, and a second reconciliation with the same list appends the messages at
index 1 and 2. Second, a view with one message and a fetched second message
whose text holds an element of class `message`: after the reconciliation the
selector counts three elements for the two messages of the list. -/
theorem reconcile_miscounts_rendered_messages :
    messageCount plainText
      [Elem.welcome, Elem.message "user".toList "hi".toList, Elem.streaming Markup.plain] = 2 ∧
    newMessages plainText
      [⟨"user".toList, "hi".toList⟩, ⟨"assistant".toList, "yo".toList⟩,
       ⟨"assistant".toList, "ping".toList⟩]
      [Elem.welcome, Elem.message "user".toList "hi".toList, Elem.streaming Markup.plain] =
      [⟨"assistant".toList, "ping".toList⟩] ∧
    reconcile plainText
      [⟨"user".toList, "hi".toList⟩, ⟨"assistant".toList, "yo".toList⟩,
       ⟨"assistant".toList, "ping".toList⟩]
      [Elem.welcome, Elem.message "user".toList "hi".toList, Elem.streaming Markup.plain] =
      [Elem.message "assistant".toList "ping".toList] ∧
    messageCount plainText (reconcile plainText
      [⟨"user".toList, "hi".toList⟩, ⟨"assistant".toList, "yo".toList⟩,
       ⟨"assistant".toList, "ping".toList⟩]
      [Elem.welcome, Elem.message "user".toList "hi".toList, Elem.streaming Markup.plain]) = 1 ∧
    newMessages plainText
      [⟨"user".toList, "hi".toList⟩, ⟨"assistant".toList, "yo".toList⟩,
       ⟨"assistant".toList, "ping".toList⟩]
      (reconcile plainText
        [⟨"user".toList, "hi".toList⟩, ⟨"assistant".toList, "yo".toList⟩,
         ⟨"assistant".toList, "ping".toList⟩]
        [Elem.welcome, Elem.message "user".toList "hi".toList, Elem.streaming Markup.plain]) =
      [⟨"assistant".toList, "yo".toList⟩, ⟨"assistant".toList, "ping".toList⟩] ∧
    messageCount
      (fun c => if c = "<div class=message>x</div>".toList
        then { messages := 1, welcome := false } else Markup.plain)
      [Elem.message "user".toList "a".toList] = 1 ∧
    messageCount
      (fun c => if c = "<div class=message>x</div>".toList
        then { messages := 1, welcome := false } else Markup.plain)
      (reconcile
        (fun c => if c = "<div class=message>x</div>".toList
          then { messages := 1, welcome := false } else Markup.plain)
        [⟨"user".toList, "a".toList⟩,
         ⟨"assistant".toList, "<div class=message>x</div>".toList⟩]
        [Elem.message "user".toList "a".toList]) = 3 := by
  decide

/-- C3 fails on the code. Selecting an empty conversation shows the welcome
placeholder; sending "hi" there appends the user message and the streamed
answer behind the placeholder. When the server later holds a third message,
the poll callback sees the placeholder, clears the whole container and
appends only that message, so the two rendered messages are gone; the next
tick against the same list then appends the second and the third message, and
the third one is shown twice. -/
theorem poll_clears_rendered_messages_and_repeats :
    (pageRun plainText (PageState.initial [])
      [PageEvent.select 1 [], PageEvent.input "hi".toList, PageEvent.submit 0,
       PageEvent.chunk 2 Markup.plain, PageEvent.streamEnd]).chatMessages =
      [Elem.welcome, Elem.message "user".toList "hi".toList, Elem.streaming Markup.plain] ∧
    (pageRun plainText (PageState.initial [])
      [PageEvent.select 1 [], PageEvent.input "hi".toList, PageEvent.submit 0,
       PageEvent.chunk 2 Markup.plain, PageEvent.streamEnd,
       PageEvent.poll (Except.ok [⟨"user".toList, "hi".toList⟩,
         ⟨"assistant".toList, "yo".toList⟩, ⟨"assistant".toList, "ping".toList⟩])]).chatMessages =
      [Elem.message "assistant".toList "ping".toList] ∧
    (pageRun plainText (PageState.initial [])
      [PageEvent.select 1 [], PageEvent.input "hi".toList, PageEvent.submit 0,
       PageEvent.chunk 2 Markup.plain, PageEvent.streamEnd,
       PageEvent.poll (Except.ok [⟨"user".toList, "hi".toList⟩,
         ⟨"assistant".toList, "yo".toList⟩, ⟨"assistant".toList, "ping".toList⟩]),
       PageEvent.poll (Except.ok [⟨"user".toList, "hi".toList⟩,
         ⟨"assistant".toList, "yo".toList⟩, ⟨"assistant".toList, "ping".toList⟩])]).chatMessages =
      [Elem.message "assistant".toList "ping".toList,
       Elem.message "assistant".toList "yo".toList,
       Elem.message "assistant".toList "ping".toList] := by
  decide

/-- C8 fails on the code. Right after a turn is submitted the send control is
disabled and a poll tick neither fetches nor changes the view. Once the user
types into the message input while the read loop is still running, the
`input` listener enables the send control again, and the next poll tick
fetches and appends to the view although the stream has not ended. -/
theorem input_edit_enables_send_during_stream :
    (pageRun plainText (PageState.initial [])
      [PageEvent.select 1 [⟨"user".toList, "old".toList⟩], PageEvent.input "hi".toList,
       PageEvent.submit 0, PageEvent.chunk 2 Markup.plain]).sendBtnDisabled = true ∧
    pageStep plainText (pageRun plainText (PageState.initial [])
      [PageEvent.select 1 [⟨"user".toList, "old".toList⟩], PageEvent.input "hi".toList,
       PageEvent.submit 0, PageEvent.chunk 2 Markup.plain])
      (PageEvent.poll (Except.ok [⟨"user".toList, "old".toList⟩, ⟨"user".toList, "hi".toList⟩,
         ⟨"assistant".toList, "yo".toList⟩, ⟨"assistant".toList, "ping".toList⟩])) =
      pageRun plainText (PageState.initial [])
      [PageEvent.select 1 [⟨"user".toList, "old".toList⟩], PageEvent.input "hi".toList,
       PageEvent.submit 0, PageEvent.chunk 2 Markup.plain] ∧
    (pageRun plainText (PageState.initial [])
      [PageEvent.select 1 [⟨"user".toList, "old".toList⟩], PageEvent.input "hi".toList,
       PageEvent.submit 0, PageEvent.chunk 2 Markup.plain,
       PageEvent.input "x".toList]).activeStreams = 1 ∧
    (pageRun plainText (PageState.initial [])
      [PageEvent.select 1 [⟨"user".toList, "old".toList⟩], PageEvent.input "hi".toList,
       PageEvent.submit 0, PageEvent.chunk 2 Markup.plain,
       PageEvent.input "x".toList]).sendBtnDisabled = false ∧
    (pageRun plainText (PageState.initial [])
      [PageEvent.select 1 [⟨"user".toList, "old".toList⟩], PageEvent.input "hi".toList,
       PageEvent.submit 0, PageEvent.chunk 2 Markup.plain, PageEvent.input "x".toList,
       PageEvent.poll (Except.ok [⟨"user".toList, "old".toList⟩, ⟨"user".toList, "hi".toList⟩,
         ⟨"assistant".toList, "yo".toList⟩, ⟨"assistant".toList, "ping".toList⟩])]).pollFetches
      = 1 ∧
    (pageRun plainText (PageState.initial [])
      [PageEvent.select 1 [⟨"user".toList, "old".toList⟩], PageEvent.input "hi".toList,
       PageEvent.submit 0, PageEvent.chunk 2 Markup.plain, PageEvent.input "x".toList,
       PageEvent.poll (Except.ok [⟨"user".toList, "old".toList⟩, ⟨"user".toList, "hi".toList⟩,
         ⟨"assistant".toList, "yo".toList⟩, ⟨"assistant".toList, "ping".toList⟩])]).chatMessages
      = [Elem.message "user".toList "old".toList, Elem.message "user".toList "hi".toList,
         Elem.streaming Markup.plain, Elem.message "assistant".toList "ping".toList] := by
  decide

end Script
